import Mathlib

/-!
# Verification of the Rusteer decryption engine (`src/crypto/mod.rs`)

This file gives a shallow embedding of the cryptographic core of the
repository and proves the specified properties about it.

Modelling conventions:
* bytes are `Nat` (values below 256 where it matters; XOR is `Nat.xor`);
* byte buffers are `List Nat`;
* file output is modelled as the byte sequence written to the sink;
* fallible operations return `Except DeezerError`;
* the external cipher primitives (the MD5 compression function of the
  `md5` crate, the raw 8-byte Blowfish block decryption of the
  `blowfish` crate, and the AES-128-CTR keystream of the `aes`/`ctr`
  crates) are opaque parameters collected in `CryptoPrims`; everything
  the repository itself computes around them is embedded concretely.
-/

/-- Opaque external primitives used by `crypto/mod.rs`.  The repository
only ever calls them through the interfaces below. -/
structure CryptoPrims where
  /-- `Md5` digest of a byte string: 16 output bytes. -/
  md5 : List Nat → List Nat
  /-- `Blowfish::<BE>::new_from_slice(key)` followed by
  `decrypt_block` on one 8-byte block (in place, so length preserving). -/
  blowfishDecryptBlock : List Nat → List Nat → List Nat
  /-- The AES-128-CTR keystream byte at a given stream position, for a
  given key and nonce (`Ctr128BE::<Aes128>` + `apply_keystream`). -/
  aesCtrKeystream : List Nat → List Nat → Nat → Nat

/-- `const SECRET_KEY: &[u8] = b"g4el58wc0zvf9na1";` -/
def SECRET_KEY : List Nat :=
  [103, 52, 101, 108, 53, 56, 119, 99, 48, 122, 118, 102, 57, 110, 97, 49]

/-- `const BLOWFISH_IV: [u8; 8] = [0x00, 0x01, ..., 0x07];` -/
def BLOWFISH_IV : List Nat := [0, 1, 2, 3, 4, 5, 6, 7]

/-- `const BLOCK_SIZE: usize = 2048;` -/
def BLOCK_SIZE : Nat := 2048

/-- `const BF_BLOCK_SIZE: usize = 8;` -/
def BF_BLOCK_SIZE : Nat := 8

/-- `slice::chunks(n)`: consecutive chunks of `n` elements, the final
chunk possibly shorter.  (`chunks 0 l = []`; the source only uses
positive chunk sizes.) -/
def chunks (n : Nat) : List α → List (List α)
  | [] => []
  | a :: rest =>
    if n = 0 then []
    else (a :: rest).take n :: chunks n ((a :: rest).drop n)
termination_by l => l.length
decreasing_by
  rename_i hn
  simp [List.length_drop]
  omega

theorem chunks_nil (n : Nat) : chunks n ([] : List α) = [] := by
  rw [chunks]

theorem chunks_zero (l : List α) : chunks 0 l = [] := by
  cases l with
  | nil => rw [chunks]
  | cons a rest => rw [chunks]; simp

theorem chunks_cons {l : List α} (hl : l ≠ []) {n : Nat} (hn : n ≠ 0) :
    chunks n l = l.take n :: chunks n (l.drop n) := by
  cases l with
  | nil => exact absurd rfl hl
  | cons a rest => rw [chunks]; simp [hn]

/-- The CBC loop of `decrypt_blowfish_cbc`: walk the 8-byte chunks of
the buffer; a chunk shorter than 8 bytes stops the loop (the `break`),
leaving it and anything after it untouched; otherwise run the raw block
decryption, XOR with the previous ciphertext, and advance the previous
ciphertext to the chunk just consumed. -/
def cbcLoop (bf : List Nat → List Nat) (prev : List Nat) :
    List (List Nat) → List (List Nat)
  | [] => []
  | c :: cs =>
    if c.length < BF_BLOCK_SIZE then c :: cs
    else List.zipWith Nat.xor (bf c) prev :: cbcLoop bf c cs

/-- `decrypt_blowfish_cbc(data, key)`: decrypt the 8-byte sub-blocks of
`data` in CBC mode starting from the fixed IV, the trailing sub-8-byte
overflow passed through untouched. -/
def decrypt_blowfish_cbc (P : CryptoPrims) (data key : List Nat) : List Nat :=
  (cbcLoop (P.blowfishDecryptBlock key) BLOWFISH_IV (chunks BF_BLOCK_SIZE data)).flatten

/-- `decrypt_blowfish_chunk(data, key)` — direct wrapper. -/
def decrypt_blowfish_chunk (P : CryptoPrims) (data key : List Nat) : List Nat :=
  decrypt_blowfish_cbc P data key

/-- `cbcLoop` run on the chunked buffer, joined back, from an arbitrary
chaining state: the common generalisation used in the proofs. -/
def cbcJoin (bf : List Nat → List Nat) (prev data : List Nat) : List Nat :=
  (cbcLoop bf prev (chunks BF_BLOCK_SIZE data)).flatten

theorem decrypt_blowfish_cbc_eq_cbcJoin (P : CryptoPrims) (data key : List Nat) :
    decrypt_blowfish_cbc P data key =
      cbcJoin (P.blowfishDecryptBlock key) BLOWFISH_IV data := rfl

theorem cbcJoin_short (bf : List Nat → List Nat) (prev : List Nat)
    {data : List Nat} (h : data.length < 8) : cbcJoin bf prev data = data := by
  rcases eq_or_ne data [] with rfl | hne
  · simp [cbcJoin, chunks_nil, cbcLoop]
  · have htake : data.take 8 = data := List.take_of_length_le (by omega)
    have hdrop : data.drop 8 = [] := List.drop_eq_nil_of_le (by omega)
    rw [cbcJoin, show BF_BLOCK_SIZE = 8 from rfl, chunks_cons hne (by omega),
      htake, hdrop, chunks_nil, cbcLoop]
    simp [BF_BLOCK_SIZE, cbcLoop, h]

theorem cbcJoin_step (bf : List Nat → List Nat) (prev : List Nat)
    {data : List Nat} (h : 8 ≤ data.length) :
    cbcJoin bf prev data =
      List.zipWith Nat.xor (bf (data.take 8)) prev ++
        cbcJoin bf (data.take 8) (data.drop 8) := by
  have hne : data ≠ [] := by
    intro hnil; rw [hnil] at h; simp at h
  have hlen : (data.take 8).length = 8 := by
    simp [List.length_take]; omega
  rw [cbcJoin, show BF_BLOCK_SIZE = 8 from rfl, chunks_cons hne (by omega), cbcLoop]
  simp [BF_BLOCK_SIZE, hlen, cbcJoin]

theorem cbcJoin_length (bf : List Nat → List Nat)
    (hbf : ∀ b : List Nat, b.length = 8 → (bf b).length = 8)
    (data prev : List Nat) (hprev : prev.length = 8) :
    (cbcJoin bf prev data).length = data.length := by
  by_cases h : 8 ≤ data.length
  · have htake : (data.take 8).length = 8 := by
      simp [List.length_take]; omega
    have ih := cbcJoin_length bf hbf (data.drop 8) (data.take 8) htake
    rw [cbcJoin_step bf prev h]
    simp [List.length_append, List.length_zipWith, hbf _ htake, hprev, ih,
      List.length_drop]
    omega
  · rw [cbcJoin_short bf prev (by omega)]
termination_by data.length
decreasing_by
  simp [List.length_drop]; omega

theorem cbcJoin_subblock (bf : List Nat → List Nat)
    (hbf : ∀ b : List Nat, b.length = 8 → (bf b).length = 8) (i : Nat) :
    ∀ data prev : List Nat, prev.length = 8 → 8 * i + 8 ≤ data.length →
      ((cbcJoin bf prev data).drop (8 * i)).take 8 =
        List.zipWith Nat.xor (bf ((data.drop (8 * i)).take 8))
          (if i = 0 then prev else (data.drop (8 * (i - 1))).take 8) := by
  induction i with
  | zero =>
    intro data prev hprev hlen
    have h8 : 8 ≤ data.length := by omega
    have hz : (List.zipWith Nat.xor (bf (data.take 8)) prev).length = 8 := by
      have hb := hbf (data.take 8) (by simp [List.length_take]; omega)
      simp [List.length_zipWith, hb, hprev]
    rw [cbcJoin_step bf prev h8]
    simp [List.take_append_eq_append_take, hz, List.take_of_length_le (le_of_eq hz)]
  | succ j ih =>
    intro data prev hprev hlen
    have h8 : 8 ≤ data.length := by omega
    have hz : (List.zipWith Nat.xor (bf (data.take 8)) prev).length = 8 := by
      have hb := hbf (data.take 8) (by simp [List.length_take]; omega)
      simp [List.length_zipWith, hb, hprev]
    have htake : (data.take 8).length = 8 := by
      simp [List.length_take]; omega
    have hlen' : 8 * j + 8 ≤ (data.drop 8).length := by
      simp [List.length_drop]; omega
    have ihj := ih (data.drop 8) (data.take 8) htake hlen'
    rw [cbcJoin_step bf prev h8, List.drop_append_eq_append_drop, hz]
    have hdz : (List.zipWith Nat.xor (bf (data.take 8)) prev).drop (8 * (j + 1)) = [] :=
      List.drop_eq_nil_of_le (by omega)
    rw [hdz, List.nil_append, show 8 * (j + 1) - 8 = 8 * j by ring_nf; omega, ihj]
    have hdd : ∀ m : Nat, (data.drop 8).drop m = data.drop (8 + m) := by
      intro m; rw [List.drop_drop]
    rcases Nat.eq_zero_or_pos j with rfl | hj
    · simp [hdd]
    · have hj1 : j + 1 ≠ 0 := by omega
      have hjne : j ≠ 0 := by omega
      simp only [hjne, hj1, if_neg, ite_false, hdd]
      have e1 : 8 + 8 * j = 8 * (j + 1) := by ring
      have e2 : 8 + 8 * (j - 1) = 8 * (j + 1 - 1) := by omega
      rw [e1, e2]

theorem cbcJoin_tail (bf : List Nat → List Nat)
    (hbf : ∀ b : List Nat, b.length = 8 → (bf b).length = 8)
    (data prev : List Nat) (hprev : prev.length = 8) :
    (cbcJoin bf prev data).drop (8 * (data.length / 8)) =
      data.drop (8 * (data.length / 8)) := by
  by_cases h : 8 ≤ data.length
  · have htake : (data.take 8).length = 8 := by
      simp [List.length_take]; omega
    have hz : (List.zipWith Nat.xor (bf (data.take 8)) prev).length = 8 := by
      have hb := hbf (data.take 8) (by simp [List.length_take]; omega)
      simp [List.length_zipWith, hb, hprev]
    have ih := cbcJoin_tail bf hbf (data.drop 8) (data.take 8) htake
    have hq : data.length / 8 = (data.drop 8).length / 8 + 1 := by
      simp [List.length_drop]; omega
    rw [cbcJoin_step bf prev h, hq, List.drop_append_eq_append_drop, hz]
    have hdz : (List.zipWith Nat.xor (bf (data.take 8)) prev).drop
        (8 * ((data.drop 8).length / 8 + 1)) = [] :=
      List.drop_eq_nil_of_le (by omega)
    have e1 : 8 * ((data.drop 8).length / 8 + 1) - 8 = 8 * ((data.drop 8).length / 8) := by
      ring_nf; omega
    rw [hdz, List.nil_append, e1, ih, List.drop_drop]
    congr 1
    ring
  · rw [cbcJoin_short bf prev (by omega)]
termination_by data.length
decreasing_by
  simp [List.length_drop]; omega

/-- Lowercase hexadecimal digit for a value below 16 (as `hex::encode`
produces: `0`–`9` then `a`–`f`). -/
def hexChar (n : Nat) : Char :=
  if n < 10 then Char.ofNat (48 + n) else Char.ofNat (87 + n)

/-- `hex::encode`: each byte becomes two lowercase hex digits, high
nibble first. -/
def hexEncode (bytes : List Nat) : List Char :=
  (bytes.map fun b => [hexChar (b / 16), hexChar (b % 16)]).flatten

/-- `str::as_bytes`: the UTF-8 bytes of a string. -/
def strBytes (s : String) : List Nat :=
  s.toUTF8.toList.map (fun b => b.toNat)

/-- `md5_hex(data)`: MD5 digest of the string's bytes, hex encoded. -/
def md5_hex (P : CryptoPrims) (data : String) : List Char :=
  hexEncode (P.md5 (strBytes data))

/-- `calc_blowfish_key(song_id)`: `key[i] = hash[i] ^ hash[i+16] ^
SECRET_KEY[i]` for `i in 0..16`, over the ASCII bytes of the hex MD5
digest.  The source's panicking index `hash_bytes[i]` is modelled
totally with `getD`; the no-panic theorem shows every index is in
bounds, so the default is never taken. -/
def calc_blowfish_key (P : CryptoPrims) (song_id : String) : List Nat :=
  let hash_bytes := (md5_hex P song_id).map Char.toNat
  (List.range 16).map fun i =>
    Nat.xor (Nat.xor (hash_bytes.getD i 0) (hash_bytes.getD (i + 16) 0))
      (SECRET_KEY.getD i 0)

/-- The block loop of `decrypt_track`:
`for chunk in encrypted_data.chunks(BLOCK_SIZE)` with the running
`block_count`; a chunk is decrypted only when `block_count % 3 == 0 &&
chunk.len() == BLOCK_SIZE`. -/
def decrypt_track_go (P : CryptoPrims) (key : List Nat) (block_count : Nat) :
    List Nat → List Nat
  | [] => []
  | a :: rest =>
    (if block_count % 3 = 0 ∧ ((a :: rest).take BLOCK_SIZE).length = BLOCK_SIZE
      then decrypt_blowfish_chunk P ((a :: rest).take BLOCK_SIZE) key
      else (a :: rest).take BLOCK_SIZE) ++
      decrypt_track_go P key (block_count + 1) ((a :: rest).drop BLOCK_SIZE)
termination_by l => l.length
decreasing_by
  simp [List.length_drop, BLOCK_SIZE]
  omega

/-- `decrypt_track(encrypted_data, song_id, output_path)`: the byte
sequence written to the output file. -/
def decrypt_track (P : CryptoPrims) (encrypted_data : List Nat) (song_id : String) :
    List Nat :=
  decrypt_track_go P (calc_blowfish_key P song_id) 0 encrypted_data

theorem decrypt_track_go_cons (P : CryptoPrims) (key : List Nat) (bc : Nat)
    {data : List Nat} (h : data ≠ []) :
    decrypt_track_go P key bc data =
      (if bc % 3 = 0 ∧ (data.take BLOCK_SIZE).length = BLOCK_SIZE
        then decrypt_blowfish_chunk P (data.take BLOCK_SIZE) key
        else data.take BLOCK_SIZE) ++
        decrypt_track_go P key (bc + 1) (data.drop BLOCK_SIZE) := by
  cases data with
  | nil => exact absurd rfl h
  | cons a rest => rw [decrypt_track_go]

theorem decrypt_track_go_small (P : CryptoPrims) (key : List Nat) (bc : Nat)
    {data : List Nat} (h : data.length < BLOCK_SIZE) :
    decrypt_track_go P key bc data = data := by
  rcases eq_or_ne data [] with rfl | hne
  · rw [decrypt_track_go]
  · have htake : data.take BLOCK_SIZE = data := List.take_of_length_le (by omega)
    have hdrop : data.drop BLOCK_SIZE = [] := List.drop_eq_nil_of_le (by omega)
    rw [decrypt_track_go_cons P key bc hne, htake, hdrop, decrypt_track_go]
    have hcond : ¬(bc % 3 = 0 ∧ data.length = BLOCK_SIZE) := by
      rintro ⟨-, hlen⟩; omega
    simp [hcond]

theorem decrypt_track_go_enumFrom (P : CryptoPrims) (key : List Nat) :
    ∀ (bc : Nat) (data : List Nat),
      decrypt_track_go P key bc data =
        ((List.enumFrom bc (chunks BLOCK_SIZE data)).map fun p =>
            if p.1 % 3 = 0 ∧ p.2.length = BLOCK_SIZE
            then decrypt_blowfish_cbc P p.2 key
            else p.2).flatten := by
  intro bc data
  rcases eq_or_ne data [] with rfl | hne
  · rw [decrypt_track_go, chunks_nil]; rfl
  · have ih := decrypt_track_go_enumFrom P key (bc + 1) (data.drop BLOCK_SIZE)
    rw [decrypt_track_go_cons P key bc hne,
      chunks_cons hne (by rw [BLOCK_SIZE]; omega), List.enumFrom_cons, List.map_cons,
      List.flatten_cons, ih]
    rfl
termination_by bc data => data.length
decreasing_by
  have : 0 < data.length := List.length_pos.mpr hne
  simp [List.length_drop, BLOCK_SIZE]
  omega

theorem decrypt_track_go_length (P : CryptoPrims) (key : List Nat)
    (hbf : ∀ b : List Nat, b.length = 8 → (P.blowfishDecryptBlock key b).length = 8)
    (bc : Nat) (data : List Nat) :
    (decrypt_track_go P key bc data).length = data.length := by
  rcases eq_or_ne data [] with rfl | hne
  · rw [decrypt_track_go]
  · have hpos : 0 < data.length := List.length_pos.mpr hne
    have ih := decrypt_track_go_length P key hbf (bc + 1) (data.drop BLOCK_SIZE)
    rw [decrypt_track_go_cons P key bc hne]
    have hproc :
        (if bc % 3 = 0 ∧ (data.take BLOCK_SIZE).length = BLOCK_SIZE
          then decrypt_blowfish_chunk P (data.take BLOCK_SIZE) key
          else data.take BLOCK_SIZE).length = (data.take BLOCK_SIZE).length := by
      split
      · exact cbcJoin_length (P.blowfishDecryptBlock key) hbf _ BLOWFISH_IV rfl
      · rfl
    rw [List.length_append, hproc, ih, List.length_take, List.length_drop]
    omega
termination_by data.length
decreasing_by
  have : 0 < data.length := List.length_pos.mpr hne
  simp [List.length_drop, BLOCK_SIZE]
  omega

/-- The inner `while accumulated.len() >= BLOCK_SIZE` loop of
`decrypt_track_streaming`: drain complete blocks from the accumulator,
decrypting every third one, and return the bytes written, the remaining
accumulator, and the updated block count. -/
def drainBlocks (P : CryptoPrims) (key accumulated : List Nat) (block_count : Nat) :
    List Nat × List Nat × Nat :=
  if h : BLOCK_SIZE ≤ accumulated.length then
    let block := accumulated.take BLOCK_SIZE
    let processed :=
      if block_count % 3 = 0 then decrypt_blowfish_chunk P block key else block
    let r := drainBlocks P key (accumulated.drop BLOCK_SIZE) (block_count + 1)
    (processed ++ r.1, r.2.1, r.2.2)
  else ([], accumulated, block_count)
termination_by accumulated.length
decreasing_by
  have h2 : (2048 : Nat) ≤ accumulated.length := h
  simp [List.length_drop, BLOCK_SIZE]
  omega

/-- The outer read loop of `decrypt_track_streaming`: each element of
`reads` is the byte slice returned by one `reader.read` call; an empty
read (`bytes_read == 0`) ends the loop, after which the remaining
accumulator is written out unmodified. -/
def streamLoop (P : CryptoPrims) (key : List Nat) :
    List (List Nat) → List Nat → Nat → List Nat
  | [], accumulated, _ => accumulated
  | r :: rs, accumulated, block_count =>
    if r.length = 0 then accumulated
    else
      let d := drainBlocks P key (accumulated ++ r) block_count
      d.1 ++ streamLoop P key rs d.2.1 d.2.2

/-- `decrypt_track_streaming(reader, song_id, output_path)`: the byte
sequence written to the output file, as a function of the successive
`reader.read` results. -/
def decrypt_track_streaming (P : CryptoPrims) (reads : List (List Nat))
    (song_id : String) : List Nat :=
  streamLoop P (calc_blowfish_key P song_id) reads [] 0

theorem drainBlocks_rest_length (P : CryptoPrims) (key : List Nat)
    (acc : List Nat) (bc : Nat) :
    ((drainBlocks P key acc bc).2.1).length < BLOCK_SIZE := by
  by_cases h : BLOCK_SIZE ≤ acc.length
  · rw [drainBlocks, dif_pos h]
    exact drainBlocks_rest_length P key (acc.drop BLOCK_SIZE) (bc + 1)
  · rw [drainBlocks, dif_neg h]
    show acc.length < BLOCK_SIZE
    omega
termination_by acc.length
decreasing_by
  have h2 : (2048 : Nat) ≤ acc.length := h
  simp [List.length_drop, BLOCK_SIZE]
  omega

theorem drainBlocks_spec (P : CryptoPrims) (key : List Nat) :
    ∀ (acc : List Nat) (bc : Nat) (data : List Nat),
      (drainBlocks P key acc bc).1 ++
          decrypt_track_go P key (drainBlocks P key acc bc).2.2
            ((drainBlocks P key acc bc).2.1 ++ data) =
        decrypt_track_go P key bc (acc ++ data) := by
  intro acc bc data
  by_cases h : BLOCK_SIZE ≤ acc.length
  · rw [drainBlocks, dif_pos h]
    have hne : acc ++ data ≠ [] := by
      intro hnil
      rw [(List.append_eq_nil.mp hnil).1] at h
      simp [BLOCK_SIZE] at h
    have htake : (acc ++ data).take BLOCK_SIZE = acc.take BLOCK_SIZE := by
      rw [List.take_append_eq_append_take, Nat.sub_eq_zero_of_le h, List.take_zero,
        List.append_nil]
    have hdrop : (acc ++ data).drop BLOCK_SIZE = acc.drop BLOCK_SIZE ++ data := by
      rw [List.drop_append_eq_append_drop, Nat.sub_eq_zero_of_le h, List.drop_zero]
    have hlen : (acc.take BLOCK_SIZE).length = BLOCK_SIZE := by
      simp [List.length_take]; omega
    have ih := drainBlocks_spec P key (acc.drop BLOCK_SIZE) (bc + 1) data
    rw [decrypt_track_go_cons P key bc hne, htake, hdrop]
    simp only [hlen, and_true]
    rw [← ih, List.append_assoc]
  · rw [drainBlocks, dif_neg h]
    simp
termination_by acc bc data => acc.length
decreasing_by
  have h2 : (2048 : Nat) ≤ acc.length := h
  simp [List.length_drop, BLOCK_SIZE]
  omega

theorem streamLoop_eq (P : CryptoPrims) (key : List Nat) :
    ∀ (reads : List (List Nat)) (acc : List Nat) (bc : Nat),
      acc.length < BLOCK_SIZE → (∀ r ∈ reads, r ≠ []) →
      streamLoop P key reads acc bc = decrypt_track_go P key bc (acc ++ reads.flatten)
  | [], acc, bc, hacc, _ => by
    rw [streamLoop, List.flatten_nil, List.append_nil,
      decrypt_track_go_small P key bc hacc]
  | r :: rs, acc, bc, hacc, hne => by
    have hr : r ≠ [] := hne r (by simp)
    have hrlen : ¬r.length = 0 := by
      simpa [List.length_eq_zero] using hr
    rw [streamLoop]
    simp only [hrlen, if_false]
    rw [streamLoop_eq P key rs _ _
        (drainBlocks_rest_length P key (acc ++ r) bc)
        (fun x hx => hne x (by simp [hx])),
      drainBlocks_spec P key (acc ++ r) bc rs.flatten,
      List.flatten_cons, List.append_assoc]

/-- The error variants of `DeezerError` reachable from the crypto
module (`error.rs`; the remaining variants belong to the out-of-scope
API layer). -/
inductive DeezerError where
  | CryptoError : String → DeezerError
  | IoError : String → DeezerError
deriving DecidableEq, Repr

/-- `cipher.apply_keystream(&mut result)`: XOR each byte with the
keystream byte at its stream position. -/
def applyKeystream (ks : Nat → Nat) : Nat → List Nat → List Nat
  | _, [] => []
  | pos, b :: rest => Nat.xor b (ks pos) :: applyKeystream ks (pos + 1) rest

/-- `decrypt_aes_ctr(data, key, nonce)`: reject a key that is not 16
bytes, then a nonce that is not 16 bytes, otherwise XOR the whole
buffer with the AES-128-CTR keystream. -/
def decrypt_aes_ctr (P : CryptoPrims) (data key nonce : List Nat) :
    Except DeezerError (List Nat) :=
  if key.length ≠ 16 then
    Except.error (DeezerError.CryptoError
      ("Invalid AES key length: " ++ toString key.length ++ " (expected 16)"))
  else if nonce.length ≠ 16 then
    Except.error (DeezerError.CryptoError
      ("Invalid nonce length: " ++ toString nonce.length ++ " (expected 16)"))
  else
    Except.ok (applyKeystream (P.aesCtrKeystream key nonce) 0 data)

theorem applyKeystream_length (ks : Nat → Nat) :
    ∀ (pos : Nat) (data : List Nat), (applyKeystream ks pos data).length = data.length
  | _, [] => rfl
  | pos, _ :: rest => by
    rw [applyKeystream, List.length_cons, List.length_cons,
      applyKeystream_length ks (pos + 1) rest]

theorem applyKeystream_involutive (ks : Nat → Nat) :
    ∀ (pos : Nat) (data : List Nat),
      applyKeystream ks pos (applyKeystream ks pos data) = data
  | _, [] => rfl
  | pos, b :: rest => by
    rw [applyKeystream, applyKeystream, applyKeystream_involutive ks (pos + 1) rest]
    congr 1
    show b ^^^ ks pos ^^^ ks pos = b
    rw [Nat.xor_assoc, Nat.xor_self, Nat.xor_zero]

/-- One hexadecimal digit, as `hex::decode` accepts it. -/
def hexDigit (c : Char) : Option Nat :=
  if 48 ≤ c.toNat ∧ c.toNat ≤ 57 then some (c.toNat - 48)
  else if 97 ≤ c.toNat ∧ c.toNat ≤ 102 then some (c.toNat - 87)
  else if 65 ≤ c.toNat ∧ c.toNat ≤ 70 then some (c.toNat - 55)
  else none

/-- `hex::decode` on a character list: one byte per pair of hex digits;
`none` on an odd-length input or a non-hex character. -/
def hexDecodeList : List Char → Option (List Nat)
  | [] => some []
  | [_] => none
  | a :: b :: rest =>
    match hexDigit a, hexDigit b, hexDecodeList rest with
    | some hi, some lo, some tail => some ((16 * hi + lo) :: tail)
    | _, _, _ => none

/-- `hex::decode` on a string. -/
def hexDecode (s : String) : Option (List Nat) :=
  hexDecodeList s.toList

/-- `EncryptionParams` — verbatim field-for-field translation. -/
structure EncryptionParams where
  encryption_type : String
  track_id : String
  md5_origin : Option String
  key : Option String
  nonce : Option String

/-- `decrypt_file(encrypted_data, params, output_path)`: dispatch on
`params.encryption_type`; `"aes"` goes to the AES-CTR path after
unwrapping and hex-decoding the key and nonce, everything else
(`"blowfish" | _`) goes to `decrypt_track`.  The result is the byte
sequence written to the output file. -/
def decrypt_file (P : CryptoPrims) (encrypted_data : List Nat)
    (params : EncryptionParams) : Except DeezerError (List Nat) :=
  if params.encryption_type = "aes" then
    match params.key with
    | none => Except.error (DeezerError.CryptoError "Missing AES key")
    | some key =>
      match params.nonce with
      | none => Except.error (DeezerError.CryptoError "Missing AES nonce")
      | some nonce =>
        match hexDecode key with
        | none => Except.error (DeezerError.CryptoError "Invalid key hex")
        | some key_bytes =>
          match hexDecode nonce with
          | none => Except.error (DeezerError.CryptoError "Invalid nonce hex")
          | some nonce_bytes =>
            match decrypt_aes_ctr P encrypted_data key_bytes nonce_bytes with
            | Except.error e => Except.error e
            | Except.ok decrypted => Except.ok decrypted
  else
    Except.ok (decrypt_track P encrypted_data params.track_id)

/-- `MetadataBlock` — verbatim field-for-field translation. -/
structure MetadataBlock where
  block_type : Nat
  length : Nat
  is_last : Bool
deriving DecidableEq, Repr

/-- `FlacAnalysis` — verbatim field-for-field translation. -/
structure FlacAnalysis where
  file_size : Nat
  has_flac_signature : Bool
  metadata_blocks : List MetadataBlock
  potential_issues : List String
deriving DecidableEq, Repr

/-- `Read::read_exact` on an in-memory byte stream: yield `n` bytes and
the remainder, or an I/O error when fewer than `n` bytes remain. -/
def readExact (bytes : List Nat) (n : Nat) :
    Except DeezerError (List Nat × List Nat) :=
  if bytes.length < n then
    Except.error (DeezerError.IoError "failed to fill whole buffer")
  else Except.ok (bytes.take n, bytes.drop n)

/-- The metadata-block loop of `analyze_flac_file`: read a 4-byte block
header (stopping on short read), record the block descriptor, skip the
payload (stopping on short read), stop on the last-block flag, and abort
with a finding once more than 100 blocks have been collected. -/
def parseBlocks (rem : List Nat) (blocks : List MetadataBlock)
    (issues : List String) : List MetadataBlock × List String :=
  if h4 : rem.length < 4 then (blocks, issues)
  else
    let h0 := rem.getD 0 0
    let is_last := h0 &&& 128 != 0
    let block_type := h0 &&& 127
    let block_length := ((rem.getD 1 0) <<< 16) ||| ((rem.getD 2 0) <<< 8) ||| rem.getD 3 0
    let blocks' := blocks ++ [⟨block_type, block_length, is_last⟩]
    let rem' := rem.drop 4
    if rem'.length < block_length then (blocks', issues)
    else if is_last then (blocks', issues)
    else if blocks'.length > 100 then
      (blocks', issues ++ ["Too many metadata blocks (possible corruption)"])
    else parseBlocks (rem'.drop block_length) blocks' issues
termination_by rem.length
decreasing_by
  simp [List.length_drop]
  omega

/-- `analyze_flac_file(file_path)`: structural scan of the FLAC
metadata chain, as a function of the file's bytes. -/
def analyze_flac_file (bytes : List Nat) : Except DeezerError FlacAnalysis :=
  let file_size := bytes.length
  if file_size < 8 then
    Except.ok ⟨file_size, false, [], ["File too small to be a valid FLAC"]⟩
  else
    match readExact bytes 4 with
    | Except.error e => Except.error e
    | Except.ok (header, rest) =>
      if header ≠ [102, 76, 97, 67] then
        Except.ok ⟨file_size, false, [],
          ["Missing FLAC signature. Found: " ++ toString header]⟩
      else
        let r := parseBlocks rest [] []
        let issues :=
          if r.1 = [] then r.2 ++ ["No metadata blocks found"]
          else if ¬ r.1.any (fun b => b.block_type == 0) then
            r.2 ++ ["Missing STREAMINFO block"]
          else r.2
        Except.ok ⟨file_size, true, r.1, issues⟩

/-- The sixteen lowercase hexadecimal digit characters. -/
def hexAlphabet : List Char := "0123456789abcdef".toList

/-- Key lengths accepted by `Blowfish::new_from_slice` (the `blowfish`
crate accepts 32–448-bit keys, i.e. 4 to 56 bytes); any other length
would hit the `expect("Invalid key length for Blowfish")` panic in
`decrypt_blowfish_cbc`. -/
def blowfishKeyLengthValid (key : List Nat) : Prop :=
  4 ≤ key.length ∧ key.length ≤ 56

/-- Concrete instantiation of the opaque primitives, used to apply the
parametric theorems to explicit inputs. -/
def testPrims : CryptoPrims :=
  { md5 := fun _ => List.replicate 16 0
    blowfishDecryptBlock := fun _ b => b
    aesCtrKeystream := fun _ _ pos => pos % 256 }

theorem hexEncode_length (bytes : List Nat) :
    (hexEncode bytes).length = 2 * bytes.length := by
  induction bytes with
  | nil => rfl
  | cons b rest ih =>
    simp only [hexEncode, List.map_cons, List.flatten_cons, List.length_append,
      List.length_cons] at ih ⊢
    simp at ih ⊢
    omega

theorem hexChar_mem {n : Nat} (h : n < 16) : hexChar n ∈ hexAlphabet := by
  interval_cases n <;> decide

theorem hexEncode_mem {bytes : List Nat} (hb : ∀ b ∈ bytes, b < 256) :
    ∀ c ∈ hexEncode bytes, c ∈ hexAlphabet := by
  induction bytes with
  | nil => intro c hc; simp [hexEncode] at hc
  | cons b rest ih =>
    intro c hc
    have hb0 : b < 256 := hb b (by simp)
    simp only [hexEncode, List.map_cons, List.flatten_cons, List.mem_append,
      List.mem_cons] at hc
    rcases hc with (rfl | rfl | h) | hc
    · exact hexChar_mem (by omega)
    · exact hexChar_mem (Nat.mod_lt _ (by omega))
    · simp at h
    · exact ih (fun x hx => hb x (by simp [hx])) c hc

theorem range16_map_getD (f : Nat → Nat) {i : Nat} (hi : i < 16) :
    ((List.range 16).map f).getD i 0 = f i := by
  have h1 : ((List.range 16).map f)[i]? = some (f i) := by
    rw [List.getElem?_map, List.getElem?_range hi]
    rfl
  rw [List.getD_eq_getElem?_getD, h1]
  rfl

/-- C1: for every track identifier and every partition of an input byte
sequence into successive non-empty `read` results, the streaming
decoder `decrypt_track_streaming` writes to its sink exactly the byte
sequence that the whole-buffer decoder `decrypt_track` writes for the
concatenated input. -/
theorem decrypt_track_streaming_equiv (P : CryptoPrims) (song_id : String)
    (reads : List (List Nat)) (hreads : ∀ r ∈ reads, r ≠ []) :
    decrypt_track_streaming P reads song_id =
      decrypt_track P reads.flatten song_id := by
  rw [decrypt_track_streaming, decrypt_track,
    streamLoop_eq P (calc_blowfish_key P song_id) reads [] 0 (by decide) hreads,
    List.nil_append]

theorem decrypt_track_streaming_equiv_witness :
    decrypt_track_streaming testPrims [[1], [2, 3]] "3135556" =
      decrypt_track testPrims ([[1], [2, 3]] : List (List Nat)).flatten "3135556" :=
  decrypt_track_streaming_equiv testPrims "3135556" [[1], [2, 3]] (by decide)

/-- C2: `decrypt_track` partitions its input into consecutive 2048-byte
blocks (the final block possibly shorter) and applies Blowfish-CBC
decryption exactly to the blocks whose zero-based index is a multiple
of 3 and whose length is exactly 2048 bytes; every other block —
non-multiple-of-3 indices and any final short block regardless of
index — appears in the output byte-identical to the input. -/
theorem decrypt_track_block_selection (P : CryptoPrims) (song_id : String)
    (data : List Nat) :
    decrypt_track P data song_id =
      ((chunks BLOCK_SIZE data).enum.map fun p =>
          if p.1 % 3 = 0 ∧ p.2.length = BLOCK_SIZE
          then decrypt_blowfish_cbc P p.2 (calc_blowfish_key P song_id)
          else p.2).flatten := by
  rw [decrypt_track, decrypt_track_go_enumFrom]
  rfl

/-- C3: `decrypt_blowfish_cbc` processes each whole 8-byte sub-block by
decrypting it with the raw Blowfish primitive and XOR-ing the result
with the previous sub-block's original ciphertext — the fixed IV for
the first sub-block — and any trailing bytes past the last whole
8-byte sub-block pass through unmodified.  (The chaining state starts
at the fixed IV on every call, and `decrypt_track` issues one call per
selected 2048-byte block, so chaining never crosses block
boundaries.) -/
theorem decrypt_blowfish_cbc_spec (P : CryptoPrims) (key data : List Nat)
    (hbf : ∀ b : List Nat, b.length = 8 → (P.blowfishDecryptBlock key b).length = 8) :
    (∀ i : Nat, 8 * i + 8 ≤ data.length →
        ((decrypt_blowfish_cbc P data key).drop (8 * i)).take 8 =
          List.zipWith Nat.xor
            (P.blowfishDecryptBlock key ((data.drop (8 * i)).take 8))
            (if i = 0 then BLOWFISH_IV else (data.drop (8 * (i - 1))).take 8))
    ∧ (decrypt_blowfish_cbc P data key).drop (8 * (data.length / 8)) =
        data.drop (8 * (data.length / 8)) := by
  constructor
  · intro i hi
    rw [decrypt_blowfish_cbc_eq_cbcJoin]
    exact cbcJoin_subblock (P.blowfishDecryptBlock key) hbf i data BLOWFISH_IV rfl hi
  · rw [decrypt_blowfish_cbc_eq_cbcJoin]
    exact cbcJoin_tail (P.blowfishDecryptBlock key) hbf data BLOWFISH_IV rfl

theorem decrypt_blowfish_cbc_spec_witness :
    (decrypt_blowfish_cbc testPrims [31, 41, 59, 26, 53, 58, 97, 93, 23, 84] []).drop
        (8 * (([31, 41, 59, 26, 53, 58, 97, 93, 23, 84] : List Nat).length / 8)) =
      ([31, 41, 59, 26, 53, 58, 97, 93, 23, 84] : List Nat).drop
        (8 * (([31, 41, 59, 26, 53, 58, 97, 93, 23, 84] : List Nat).length / 8)) :=
  (decrypt_blowfish_cbc_spec testPrims [] [31, 41, 59, 26, 53, 58, 97, 93, 23, 84]
    (fun _ h => h)).2

/-- C4: `calc_blowfish_key` returns exactly 16 bytes with
`key[i] = hex[i] XOR hex[i+16] XOR secret[i]`, where `hex` is the ASCII
byte representation of the 32-character lowercase hexadecimal MD5
digest of the input (not the raw digest bytes) and `secret` is the
fixed vendor constant; being a pure function of the identifier it is
deterministic, and no input — the empty string included — is
rejected. -/
theorem calc_blowfish_key_spec (P : CryptoPrims) (s : String)
    (hlen : (P.md5 (strBytes s)).length = 16)
    (hbyte : ∀ b ∈ P.md5 (strBytes s), b < 256) :
    (calc_blowfish_key P s).length = 16
    ∧ (md5_hex P s).length = 32
    ∧ (∀ c ∈ md5_hex P s, c ∈ hexAlphabet)
    ∧ ∀ i : Nat, i < 16 →
        (calc_blowfish_key P s).getD i 0 =
          Nat.xor
            (Nat.xor (((md5_hex P s).map Char.toNat).getD i 0)
              (((md5_hex P s).map Char.toNat).getD (i + 16) 0))
            (SECRET_KEY.getD i 0) := by
  refine ⟨by simp [calc_blowfish_key], ?_, hexEncode_mem hbyte, ?_⟩
  · rw [md5_hex, hexEncode_length, hlen]
  · intro i hi
    rw [calc_blowfish_key]
    exact range16_map_getD _ hi

theorem calc_blowfish_key_spec_witness :
    (calc_blowfish_key testPrims "").length = 16 :=
  (calc_blowfish_key_spec testPrims "" rfl (by decide)).1

/-- C5: every decryption variant preserves the input length — the
whole-buffer stripe path, the streaming stripe path (for any partition
of the input into non-empty reads), and the AES-CTR path whenever it
succeeds. -/
theorem decrypt_length_preservation (P : CryptoPrims) (song_id : String)
    (data key nonce : List Nat) (reads : List (List Nat))
    (hbf : ∀ k b : List Nat, b.length = 8 → (P.blowfishDecryptBlock k b).length = 8)
    (hreads : ∀ r ∈ reads, r ≠ []) :
    (decrypt_track P data song_id).length = data.length
    ∧ (decrypt_track_streaming P reads song_id).length = reads.flatten.length
    ∧ (∀ out, decrypt_aes_ctr P data key nonce = Except.ok out →
        out.length = data.length) := by
  refine ⟨decrypt_track_go_length P _ (hbf _) 0 data, ?_, ?_⟩
  · rw [decrypt_track_streaming,
      streamLoop_eq P (calc_blowfish_key P song_id) reads [] 0 (by decide) hreads,
      List.nil_append]
    exact decrypt_track_go_length P _ (hbf _) 0 reads.flatten
  · intro out hout
    rw [decrypt_aes_ctr] at hout
    split at hout
    · exact absurd hout (by simp)
    · split at hout
      · exact absurd hout (by simp)
      · simp only [Except.ok.injEq] at hout
        rw [← hout]
        exact applyKeystream_length _ 0 data

theorem decrypt_length_preservation_witness :
    (decrypt_track testPrims [5, 6, 7] "id").length =
      ([5, 6, 7] : List Nat).length :=
  (decrypt_length_preservation testPrims "id" [5, 6, 7] [] [] [[9]]
    (fun _ _ h => h) (by decide)).1

/-- C8: applying the AES-CTR transform twice with the same 16-byte key
and 16-byte nonce restores the original buffer — the CTR keystream
application is an involution, so encryption and decryption coincide. -/
theorem decrypt_aes_ctr_involution (P : CryptoPrims) (data key nonce : List Nat)
    (hkey : key.length = 16) (hnonce : nonce.length = 16) :
    (decrypt_aes_ctr P data key nonce).bind
        (fun mid => decrypt_aes_ctr P mid key nonce) = Except.ok data := by
  simp only [decrypt_aes_ctr, hkey, hnonce, ne_eq, not_true_eq_false, if_false,
    ite_false, Except.bind]
  rw [applyKeystream_involutive]

theorem decrypt_aes_ctr_involution_witness :
    (decrypt_aes_ctr testPrims [1, 2, 3] (List.replicate 16 0)
        (List.replicate 16 1)).bind
      (fun mid => decrypt_aes_ctr testPrims mid (List.replicate 16 0)
        (List.replicate 16 1)) = Except.ok [1, 2, 3] :=
  decrypt_aes_ctr_involution testPrims [1, 2, 3] (List.replicate 16 0)
    (List.replicate 16 1) (by decide) (by decide)

/-- C10: `calc_blowfish_key` cannot panic: the hex MD5 digest always
has exactly 32 bytes, so both `hash_bytes[i]` and `hash_bytes[i + 16]`
are in bounds for every `i < 16`; the derived key therefore has exactly
16 bytes, which `Blowfish::new_from_slice` accepts, so the
invalid-key-length panic branch of `decrypt_blowfish_cbc` is
unreachable for a derived key. -/
theorem calc_blowfish_key_no_panic (P : CryptoPrims) (song_id : String)
    (hlen : (P.md5 (strBytes song_id)).length = 16) :
    (md5_hex P song_id).length = 32
    ∧ (∀ i : Nat, i < 16 →
        i < ((md5_hex P song_id).map Char.toNat).length
        ∧ i + 16 < ((md5_hex P song_id).map Char.toNat).length)
    ∧ (calc_blowfish_key P song_id).length = 16
    ∧ blowfishKeyLengthValid (calc_blowfish_key P song_id) := by
  have h32 : (md5_hex P song_id).length = 32 := by
    rw [md5_hex, hexEncode_length, hlen]
  have h16 : (calc_blowfish_key P song_id).length = 16 := by
    simp [calc_blowfish_key]
  exact ⟨h32, fun i hi => by simp [List.length_map, h32]; omega,
    h16, by rw [blowfishKeyLengthValid, h16]; omega⟩

theorem calc_blowfish_key_no_panic_witness :
    blowfishKeyLengthValid (calc_blowfish_key testPrims "3135556") :=
  (calc_blowfish_key_no_panic testPrims "3135556" rfl).2.2.2

theorem decrypt_aes_ctr_error_of_badlen (P : CryptoPrims)
    (data key nonce : List Nat) (h : key.length ≠ 16 ∨ nonce.length ≠ 16) :
    ∃ e, decrypt_aes_ctr P data key nonce = Except.error e := by
  rw [decrypt_aes_ctr]
  by_cases hk : key.length ≠ 16
  · exact ⟨_, by rw [if_pos hk]⟩
  · have hn : nonce.length ≠ 16 := h.resolve_left (by simpa using hk)
    exact ⟨_, by rw [if_neg hk, if_pos hn]⟩

/-- C6: `decrypt_aes_ctr` returns an invalid-parameter error exactly
when the supplied key is not 16 bytes or the supplied nonce is not 16
bytes, before any cipher construction; in the error case no output is
produced, and when `decrypt_file` dispatches `"aes"` parameters whose
hex-decoded key or nonce has the wrong length it returns the error
without writing any output. -/
theorem decrypt_aes_ctr_param_validation (P : CryptoPrims)
    (data key nonce : List Nat) (params : EncryptionParams)
    (kh nh : String) (kb nb : List Nat) :
    ((∃ e, decrypt_aes_ctr P data key nonce = Except.error e) ↔
      key.length ≠ 16 ∨ nonce.length ≠ 16)
    ∧ (params.encryption_type = "aes" → params.key = some kh →
        params.nonce = some nh → hexDecode kh = some kb →
        hexDecode nh = some nb → (kb.length ≠ 16 ∨ nb.length ≠ 16) →
        ∃ e, decrypt_file P data params = Except.error e) := by
  constructor
  · constructor
    · rintro ⟨e, he⟩
      by_contra hcon
      push_neg at hcon
      rw [decrypt_aes_ctr] at he
      simp [hcon.1, hcon.2] at he
    · exact decrypt_aes_ctr_error_of_badlen P data key nonce
  · intro htype hkey hnonce hkd hnd hbad
    obtain ⟨e, he⟩ := decrypt_aes_ctr_error_of_badlen P data kb nb hbad
    refine ⟨e, ?_⟩
    simp only [decrypt_file, htype, if_true, hkey, hnonce, hkd, hnd, he]

theorem decrypt_aes_ctr_param_validation_witness :
    ∃ e, decrypt_file testPrims [1, 2]
        ⟨"aes", "t", none, some "00", some "00"⟩ = Except.error e :=
  (decrypt_aes_ctr_param_validation testPrims [1, 2] [] []
      ⟨"aes", "t", none, some "00", some "00"⟩ "00" "00" [0] [0]).2
    rfl rfl rfl (by decide) (by decide) (Or.inl (by decide))

/-- C7 counterexample: `"aes"`-tagged parameters with a missing key are
a hard validation failure at the dispatch layer that is not one of the
two 16-byte length checks — `decrypt_file` errors with "Missing AES
key" instead of falling back to Blowfish or reaching a length check,
refuting that the length checks are the only hard failures there. -/
theorem decrypt_file_aes_missing_key_counterexample :
    decrypt_file testPrims [] ⟨"aes", "1", none, none, none⟩ =
      Except.error (DeezerError.CryptoError "Missing AES key") := rfl

/-- C7 (amended): every `EncryptionParams` whose encryption type is not
the `"aes"` tag — unrecognized or malformed combinations included — is
routed to the Blowfish path as an explicit fallback and never fails at
this layer; on the `"aes"` path the hard validation failures are the
missing-key and missing-nonce checks, the two hex-decoding checks and
the two 16-byte length checks: the dispatch succeeds exactly when key
and nonce are present, hex-decode, and decode to 16 bytes each. -/
theorem decrypt_file_dispatch_amended (P : CryptoPrims) (data : List Nat)
    (params : EncryptionParams) :
    (params.encryption_type ≠ "aes" →
      decrypt_file P data params =
        Except.ok (decrypt_track P data params.track_id))
    ∧ (params.encryption_type = "aes" →
      ((∃ out, decrypt_file P data params = Except.ok out) ↔
        ∃ kh nh kb nb, params.key = some kh ∧ params.nonce = some nh ∧
          hexDecode kh = some kb ∧ hexDecode nh = some nb ∧
          kb.length = 16 ∧ nb.length = 16)) := by
  obtain ⟨et, tid, m5, pk, pn⟩ := params
  constructor
  · intro hne
    simp only at hne
    simp [decrypt_file, hne]
  · intro htype
    simp only at htype
    subst htype
    cases pk with
    | none => simp [decrypt_file]
    | some kh =>
      cases pn with
      | none => simp [decrypt_file]
      | some nh =>
        cases hkd : hexDecode kh with
        | none => simp [decrypt_file, hkd]
        | some kb =>
          cases hnd : hexDecode nh with
          | none => simp [decrypt_file, hkd, hnd]
          | some nb =>
            by_cases hkl : kb.length = 16
            · by_cases hnl : nb.length = 16
              · simp [decrypt_file, hkd, hnd, decrypt_aes_ctr, hkl, hnl]
              · simp [decrypt_file, hkd, hnd, decrypt_aes_ctr, hkl, hnl]
            · simp [decrypt_file, hkd, hnd, decrypt_aes_ctr, hkl]

theorem decrypt_file_dispatch_amended_witness :
    decrypt_file testPrims [4, 5] ⟨"blowfish", "42", none, none, none⟩ =
      Except.ok (decrypt_track testPrims [4, 5] "42") :=
  (decrypt_file_dispatch_amended testPrims [4, 5]
      ⟨"blowfish", "42", none, none, none⟩).1 (by decide)

theorem analyze_flac_file_of_ge8 {bytes : List Nat} (h8 : ¬ bytes.length < 8) :
    analyze_flac_file bytes =
      if bytes.take 4 ≠ [102, 76, 97, 67] then
        Except.ok ⟨bytes.length, false, [],
          ["Missing FLAC signature. Found: " ++ toString (bytes.take 4)]⟩
      else
        Except.ok ⟨bytes.length, true, (parseBlocks (bytes.drop 4) [] []).1,
          if (parseBlocks (bytes.drop 4) [] []).1 = [] then
            (parseBlocks (bytes.drop 4) [] []).2 ++ ["No metadata blocks found"]
          else if ¬ (parseBlocks (bytes.drop 4) [] []).1.any
              (fun b => b.block_type == 0) then
            (parseBlocks (bytes.drop 4) [] []).2 ++ ["Missing STREAMINFO block"]
          else (parseBlocks (bytes.drop 4) [] []).2⟩ := by
  have hre : readExact bytes 4 = Except.ok (bytes.take 4, bytes.drop 4) := by
    rw [readExact, if_neg (by omega)]
  rw [analyze_flac_file]
  simp only [if_neg h8, hre]

theorem parseBlocks_step {rem : List Nat} (h4 : ¬ rem.length < 4)
    (blocks : List MetadataBlock) (issues : List String) :
    parseBlocks rem blocks issues =
      if (rem.drop 4).length <
          ((rem.getD 1 0) <<< 16) ||| ((rem.getD 2 0) <<< 8) ||| rem.getD 3 0 then
        (blocks ++ [⟨rem.getD 0 0 &&& 127,
          ((rem.getD 1 0) <<< 16) ||| ((rem.getD 2 0) <<< 8) ||| rem.getD 3 0,
          rem.getD 0 0 &&& 128 != 0⟩], issues)
      else if (rem.getD 0 0 &&& 128 != 0 : Bool) then
        (blocks ++ [⟨rem.getD 0 0 &&& 127,
          ((rem.getD 1 0) <<< 16) ||| ((rem.getD 2 0) <<< 8) ||| rem.getD 3 0,
          rem.getD 0 0 &&& 128 != 0⟩], issues)
      else if (blocks ++ [(⟨rem.getD 0 0 &&& 127,
          ((rem.getD 1 0) <<< 16) ||| ((rem.getD 2 0) <<< 8) ||| rem.getD 3 0,
          rem.getD 0 0 &&& 128 != 0⟩ : MetadataBlock)]).length > 100 then
        (blocks ++ [⟨rem.getD 0 0 &&& 127,
          ((rem.getD 1 0) <<< 16) ||| ((rem.getD 2 0) <<< 8) ||| rem.getD 3 0,
          rem.getD 0 0 &&& 128 != 0⟩],
         issues ++ ["Too many metadata blocks (possible corruption)"])
      else parseBlocks ((rem.drop 4).drop
          (((rem.getD 1 0) <<< 16) ||| ((rem.getD 2 0) <<< 8) ||| rem.getD 3 0))
        (blocks ++ [⟨rem.getD 0 0 &&& 127,
          ((rem.getD 1 0) <<< 16) ||| ((rem.getD 2 0) <<< 8) ||| rem.getD 3 0,
          rem.getD 0 0 &&& 128 != 0⟩]) issues := by
  rw [parseBlocks, dif_neg h4]

/-- The input-side condition under which the metadata scan overruns the
100-block threshold: the stream continues through `k` consecutive
complete metadata blocks (full 4-byte header and full payload present)
none of which carries the last-block flag, so the loop neither stops at
a short read nor at a last-flag before its threshold check fires.  The
header fields are decoded exactly as `parseBlocks` decodes them. -/
def chainNonLast : List Nat → Nat → Prop
  | _, 0 => True
  | rem, k + 1 =>
    4 ≤ rem.length ∧ (rem.getD 0 0) &&& 128 = 0 ∧
      (((rem.getD 1 0) <<< 16) ||| ((rem.getD 2 0) <<< 8) ||| rem.getD 3 0) ≤
        (rem.drop 4).length ∧
      chainNonLast ((rem.drop 4).drop
        (((rem.getD 1 0) <<< 16) ||| ((rem.getD 2 0) <<< 8) ||| rem.getD 3 0)) k

theorem parseBlocks_threshold :
    ∀ (k : Nat) (rem : List Nat) (blocks : List MetadataBlock) (issues : List String),
      blocks.length + k = 101 → blocks.length ≤ 100 → chainNonLast rem k →
      (parseBlocks rem blocks issues).2 =
        issues ++ ["Too many metadata blocks (possible corruption)"] := by
  intro k
  induction k with
  | zero => intro rem blocks issues h101 h100 _; omega
  | succ j ih =>
    intro rem blocks issues h101 h100 hchain
    obtain ⟨h4, hlast, hfit, htail⟩ := hchain
    rw [parseBlocks_step (show ¬ rem.length < 4 by omega) blocks issues,
      if_neg (Nat.not_lt.mpr hfit)]
    have hlast' : (rem.getD 0 0 &&& 128 != 0 : Bool) = false := by
      rw [hlast]
      rfl
    rw [hlast']
    rw [if_neg (show ¬ (false : Bool) = true by simp)]
    by_cases hbl : blocks.length = 100
    · rw [if_pos (by simp [hbl])]
    · rw [if_neg (by simp; omega)]
      exact ih _ _ issues (by simp; omega) (by simp; omega) htail

theorem getD_replicate_zero (n i : Nat) : (List.replicate n 0).getD i 0 = 0 := by
  rw [List.getD_eq_getElem?_getD, List.getElem?_replicate]
  split <;> rfl

theorem replicate_drop4 (j : Nat) :
    (List.replicate (4 * (j + 1)) (0 : Nat)).drop 4 = List.replicate (4 * j) 0 := by
  have h := List.drop_left (List.replicate 4 (0 : Nat)) (List.replicate (4 * j) 0)
  simp only [List.length_replicate] at h
  rw [show 4 * (j + 1) = 4 + 4 * j by ring, List.replicate_add, h]

theorem parseBlocks_zeros :
    ∀ (k : Nat) (blocks : List MetadataBlock) (issues : List String),
      blocks.length ≤ 100 → 101 ≤ blocks.length + k →
      parseBlocks (List.replicate (4 * k) 0) blocks issues =
        (blocks ++ List.replicate (101 - blocks.length) ⟨0, 0, false⟩,
         issues ++ ["Too many metadata blocks (possible corruption)"]) := by
  intro k
  induction k with
  | zero => intro blocks issues h1 h2; omega
  | succ j ih =>
    intro blocks issues h1 h2
    rw [parseBlocks, dif_neg (by simp)]
    simp only [getD_replicate_zero, replicate_drop4]
    norm_num
    by_cases hbl : blocks.length = 100
    · rw [if_pos (by simp [hbl])]
      rw [hbl]
      norm_num
    · have ihh := ih (blocks ++ [(⟨0, 0, false⟩ : MetadataBlock)]) issues
        (by simp; omega) (by simp; omega)
      rw [if_neg (by simp; omega), ihh]
      have hl : blocks ++ [(⟨0, 0, false⟩ : MetadataBlock)] ++
          List.replicate (101 - (blocks ++ [(⟨0, 0, false⟩ : MetadataBlock)]).length)
            (⟨0, 0, false⟩ : MetadataBlock) =
          blocks ++ List.replicate (101 - blocks.length) (⟨0, 0, false⟩ : MetadataBlock) := by
        rw [List.append_assoc]
        congr 1
        rw [List.length_append, List.length_cons, List.length_nil,
          show (101 : Nat) - blocks.length = (101 - (blocks.length + 1)) + 1 by omega,
          List.replicate_succ]
        rfl
      rw [hl]

/-- C9: `analyze_flac_file` never raises a hard failure for structural
anomalies: it returns `Ok` for every input, and each listed anomaly is
surfaced as a finding in the returned report — every file smaller than
8 bytes, every at-least-8-byte file without the FLAC signature, every
signed file whose scan records no metadata block, every signed file
whose recorded blocks lack the mandatory type-0 block, and every
signed file whose metadata chain runs through 101 consecutive complete
non-last blocks (exactly the condition under which the source loop
passes its fixed 100-block threshold and aborts the scan; a chain that
terminates at its 101st block by last-flag or short read is a normal
termination and gets no finding).  In particular a 4-byte file yields
`has_flac_signature = false` with a non-empty findings list, and a
well-formed file with a single type-0 metadata block marked last
yields an empty findings list. -/
theorem analyze_flac_file_spec :
    (∀ bytes : List Nat, ∃ a, analyze_flac_file bytes = Except.ok a)
    ∧ (∀ bytes : List Nat, bytes.length < 8 →
        analyze_flac_file bytes =
          Except.ok ⟨bytes.length, false, [], ["File too small to be a valid FLAC"]⟩)
    ∧ (∀ (bytes : List Nat) (a : FlacAnalysis), bytes.length = 4 →
        analyze_flac_file bytes = Except.ok a →
        a.has_flac_signature = false ∧ a.potential_issues ≠ [])
    ∧ (∀ bytes : List Nat, ¬ bytes.length < 8 → bytes.take 4 ≠ [102, 76, 97, 67] →
        ∃ a, analyze_flac_file bytes = Except.ok a ∧
          a.has_flac_signature = false ∧ a.potential_issues ≠ [])
    ∧ (∀ bytes : List Nat, ¬ bytes.length < 8 → bytes.take 4 = [102, 76, 97, 67] →
        (parseBlocks (bytes.drop 4) [] []).1 = [] →
        ∃ a, analyze_flac_file bytes = Except.ok a ∧ a.potential_issues ≠ [])
    ∧ (∀ bytes : List Nat, ¬ bytes.length < 8 → bytes.take 4 = [102, 76, 97, 67] →
        (parseBlocks (bytes.drop 4) [] []).1 ≠ [] →
        (parseBlocks (bytes.drop 4) [] []).1.any (fun b => b.block_type == 0) = false →
        ∃ a, analyze_flac_file bytes = Except.ok a ∧ a.potential_issues ≠ [])
    ∧ (∀ bytes : List Nat, ¬ bytes.length < 8 → bytes.take 4 = [102, 76, 97, 67] →
        chainNonLast (bytes.drop 4) 101 →
        ∃ a, analyze_flac_file bytes = Except.ok a ∧
          "Too many metadata blocks (possible corruption)" ∈ a.potential_issues)
    ∧ analyze_flac_file ([102, 76, 97, 67] ++ List.replicate (4 * 102) 0) =
        Except.ok ⟨412, true, List.replicate 101 ⟨0, 0, false⟩,
          ["Too many metadata blocks (possible corruption)"]⟩
    ∧ analyze_flac_file [102, 76, 97, 67, 128, 0, 0, 0] =
        Except.ok ⟨8, true, [⟨0, 0, true⟩], []⟩ := by
  refine ⟨?_, ?_, ?_, ?_, ?_, ?_, ?_, ?_, ?_⟩
  · intro bytes
    by_cases h8 : bytes.length < 8
    · exact ⟨_, by rw [analyze_flac_file, if_pos h8]⟩
    · rw [analyze_flac_file_of_ge8 h8]
      by_cases hsig : bytes.take 4 ≠ [102, 76, 97, 67]
      · exact ⟨_, if_pos hsig⟩
      · exact ⟨_, if_neg hsig⟩
  · intro bytes h
    rw [analyze_flac_file, if_pos h]
  · intro bytes a hlen hok
    rw [analyze_flac_file, if_pos (by omega)] at hok
    simp only [Except.ok.injEq] at hok
    rw [← hok]
    exact ⟨rfl, by simp⟩
  · intro bytes h8 hsig
    rw [analyze_flac_file_of_ge8 h8, if_pos hsig]
    exact ⟨_, rfl, rfl, by simp⟩
  · intro bytes h8 hsig hempty
    rw [analyze_flac_file_of_ge8 h8, if_neg (by simp [hsig])]
    refine ⟨_, rfl, ?_⟩
    simp [hempty]
  · intro bytes h8 hsig hne hany
    rw [analyze_flac_file_of_ge8 h8, if_neg (by simp [hsig])]
    refine ⟨_, rfl, ?_⟩
    simp [hne, hany]
  · intro bytes h8 hsig hchain
    rw [analyze_flac_file_of_ge8 h8, if_neg (by simp [hsig])]
    refine ⟨_, rfl, ?_⟩
    have h2 := parseBlocks_threshold 101 (bytes.drop 4) [] [] (by simp) (by simp) hchain
    dsimp only
    split
    · simp [h2]
    · split
      · simp [h2]
      · simp [h2]
  · have hlen : ([102, 76, 97, 67] ++ List.replicate (4 * 102) (0 : Nat)).length = 412 := by
      rw [List.length_append, List.length_replicate]
      rfl
    have h8 : ¬ ([102, 76, 97, 67] ++ List.replicate (4 * 102) (0 : Nat)).length < 8 := by
      rw [hlen]; omega
    have hdrop : ([102, 76, 97, 67] ++ List.replicate (4 * 102) (0 : Nat)).drop 4 =
        List.replicate (4 * 102) (0 : Nat) := List.drop_left [102, 76, 97, 67] _
    have htake : ([102, 76, 97, 67] ++ List.replicate (4 * 102) (0 : Nat)).take 4 =
        [102, 76, 97, 67] := List.take_left [102, 76, 97, 67] _
    rw [analyze_flac_file_of_ge8 h8,
      if_neg (show ¬ _ ≠ _ by rw [htake]; exact fun hcon => hcon rfl),
      hdrop, parseBlocks_zeros 102 [] [] (by simp) (by simp), hlen]
    simp only [List.nil_append, List.length_nil, Nat.sub_zero]
    have hne : (List.replicate 101 (⟨0, 0, false⟩ : MetadataBlock)) ≠ [] := by
      intro hcon
      have hc := congrArg List.length hcon
      rw [List.length_replicate] at hc
      simp at hc
    rw [if_neg hne]
    have hany : (List.replicate 101 (⟨0, 0, false⟩ : MetadataBlock)).any
        (fun b => b.block_type == 0) = true := rfl
    rw [if_neg (fun hc => hc hany)]
  · rw [analyze_flac_file_of_ge8 (by decide)]
    norm_num
    constructor
    · simp [parseBlocks]
      decide
    · simp [parseBlocks]
      decide

theorem analyze_flac_file_spec_witness :
    ([0, 0, 0, 0] : List Nat).length = 4 ∧
      ((⟨4, false, [], ["File too small to be a valid FLAC"]⟩ :
          FlacAnalysis).has_flac_signature = false ∧
        (⟨4, false, [], ["File too small to be a valid FLAC"]⟩ :
          FlacAnalysis).potential_issues ≠ []) :=
  ⟨rfl, analyze_flac_file_spec.2.2.1 [0, 0, 0, 0] _ rfl rfl⟩
